import Mathlib

/-!
# Verification of the LinkedIn job-filter listing engine

Shallow embedding of the content-script logic of the `linkedin-extension`
repository: status/recency classification (`getJobStatus`, `parseRelativeTime`),
the marker pass (`processJobs`), the original-order ledger
(`captureOriginalOrder` guarded inside `sortJobs`), the four sort policies of
`sortJobs`, the mutation-observer callback (`startObserver`) and the message
listener (`setupMessageListener`).

The embedding follows the content-script variant that derives recency from
relative-time text (`parseRelativeTime`); where the two content-script copies
in the repository disagree (the `recent` comparator's handling of items
without a timestamp) this is the variant whose behavior the specification
documents.  JavaScript strings are modelled as `List Char` (all text involved
is ASCII); `Date` values are epoch milliseconds as `Int`; `Array.prototype.sort`
(stable per ECMAScript 2019, and deterministic here because every comparator
used is rank-consistent) is modelled by the stable insertion sort `sortStable`.
-/

namespace JobFilter

/-- The character class matched by the regex `\s` (ASCII part), also the
characters removed by `String.prototype.trim`. -/
def jsWhitespace (c : Char) : Bool :=
  c = ' ' ∨ c = '\t' ∨ c = '\n' ∨ c = '\r' ∨ c = '\x0b' ∨ c = '\x0c'

/-- `String.prototype.trim`: drop leading and trailing whitespace. -/
def trimChars (cs : List Char) : List Char :=
  ((cs.dropWhile jsWhitespace).reverse.dropWhile jsWhitespace).reverse

/-- `text.split('\n')`: split into lines at every newline character. -/
def splitLines : List Char → List (List Char)
  | [] => [[]]
  | c :: cs =>
    match splitLines cs with
    | [] => [[c]]
    | h :: t => if c = '\n' then [] :: h :: t else (c :: h) :: t

/-- `hay.includes(needle)`: case-sensitive substring test. -/
def containsSub (needle : List Char) : List Char → Bool
  | [] => decide (needle = [])
  | c :: cs => needle.isPrefixOf (c :: cs) || containsSub needle cs

/-- Strip `pat` (given in lowercase) from the front of `cs`, comparing
case-insensitively; returns the remainder on success.  Implements a
case-insensitive literal inside a `/.../i` regex. -/
def stripCI : List Char → List Char → Option (List Char)
  | [], cs => some cs
  | _ :: _, [] => none
  | p :: ps, c :: cs => if c.toLower = p then stripCI ps cs else none

/-- The time units accepted by the relative-time regex. -/
inductive TimeUnit where
  | minute
  | hour
  | day
  | week
deriving DecidableEq

/-- Milliseconds per unit, as in the `msPerUnit` record of the source. -/
def msPerUnit : TimeUnit → Int
  | .minute => 60 * 1000
  | .hour => 60 * 60 * 1000
  | .day => 24 * 60 * 60 * 1000
  | .week => 7 * 24 * 60 * 60 * 1000

/-- The alternation `(minute|hour|day|week)` of the regex, case-insensitive. -/
def tryUnit (cs : List Char) : Option (TimeUnit × List Char) :=
  match stripCI "minute".data cs with
  | some r => some (.minute, r)
  | none =>
    match stripCI "hour".data cs with
    | some r => some (.hour, r)
    | none =>
      match stripCI "day".data cs with
      | some r => some (.day, r)
      | none =>
        match stripCI "week".data cs with
        | some r => some (.week, r)
        | none => none

/-- `parseInt(digits, 10)` on a nonempty digit string. -/
def digitsToNat (cs : List Char) : Nat :=
  cs.foldl (fun n c => 10 * n + (c.toNat - 48)) 0

/-- Attempt to match `(\d+)\s+(minute|hour|day|week)s?\s+ago` (flag `i`)
anchored at the start of `cs`.  Greedy `\d+` and `\s+` need no backtracking
here because the character classes of adjacent regex pieces are disjoint. -/
def tryMatchAt (cs : List Char) : Option (Nat × TimeUnit) :=
  let digits := cs.takeWhile Char.isDigit
  if digits.isEmpty then none else
  let r1 := cs.dropWhile Char.isDigit
  if (r1.takeWhile jsWhitespace).isEmpty then none else
  let r2 := r1.dropWhile jsWhitespace
  match tryUnit r2 with
  | none => none
  | some (u, r3) =>
    let r4 := match r3 with
      | c :: rest => if c.toLower = 's' then rest else c :: rest
      | [] => ([] : List Char)
    if (r4.takeWhile jsWhitespace).isEmpty then none else
    let r5 := r4.dropWhile jsWhitespace
    match stripCI "ago".data r5 with
    | some _ => some (digitsToNat digits, u)
    | none => none

/-- `timeLine.match(/(\d+)\s+(minute|hour|day|week)s?\s+ago/i)`: leftmost
match of the relative-time pattern, returning the captured value and unit. -/
def scanMatch : List Char → Option (Nat × TimeUnit)
  | [] => none
  | c :: cs =>
    match tryMatchAt (c :: cs) with
    | some r => some r
    | none => scanMatch cs

/-- `parseRelativeTime` from the content script: pick the first
newline-separated line containing the (lowercase) substring `"ago"`, trim it,
match the relative-duration regex, and subtract `value * msPerUnit` from the
current instant `now` (epoch milliseconds). -/
def parseRelativeTime (now : Int) (text : String) : Option Int :=
  let lines := splitLines text.data
  let timeLine := trimChars ((lines.find? (fun l => containsSub "ago".data l)).getD [])
  match scanMatch timeLine with
  | none => none
  | some (v, u) => some (now - (v : Int) * msPerUnit u)

/-- The three status categories of `JobStatus` in `types.ts`. -/
inductive JobStatus where
  | normal
  | viewed
  | applied
deriving DecidableEq

/-- `JobCardInfo` of `types.ts`: derived status plus optional recency
timestamp (epoch milliseconds). -/
structure JobCardInfo where
  status : JobStatus
  time : Option Int
deriving DecidableEq

/-- The three CSS markers the engine assigns per item:
`linkedin-job-filter-viewed`, `linkedin-job-filter-applied` (the dim marker)
and `hidden`. -/
structure Markers where
  viewedClass : Bool
  appliedClass : Bool
  hiddenClass : Bool
deriving DecidableEq

/-- One job card.  `id` models DOM reference identity; `stateText` is the
text content of the `.job-card-container__footer-job-state` element if
present; `timeText` is the text content of the time element if present;
`markers` is the subset of the three engine CSS classes currently on the
card. -/
structure Job where
  id : Nat
  stateText : Option String
  timeText : Option String
  markers : Markers
deriving DecidableEq

/-- `ExtensionSettings` of `types.ts`.  `sortBy` and `appliedAction` are kept
as runtime strings: the settings object is rebuilt by spreading data from
`chrome.storage` / message payloads, so out-of-enum values are observable. -/
structure ExtensionSettings where
  sortBy : String
  appliedAction : String
  highlightViewed : Bool
deriving DecidableEq

/-- `getJobStatus`: status from the trimmed, lowercased state text
(`viewed` before `applied`, default `normal`), recency from
`parseRelativeTime` on the time text. -/
def getJobStatus (now : Int) (j : Job) : JobCardInfo :=
  let status : JobStatus :=
    match j.stateText with
    | none => .normal
    | some t =>
      let s := (trimChars t.data).map Char.toLower
      if containsSub "viewed".data s then .viewed
      else if containsSub "applied".data s then .applied
      else .normal
  let time : Option Int :=
    match j.timeText with
    | none => none
    | some t => parseRelativeTime now t
  { status := status, time := time }

/-- The body of the `jobs.forEach` loop of `processJobs`: clear the three
markers, then re-add `linkedin-job-filter-viewed` when the status is
`viewed` and highlighting is on, and exactly one of `hidden` /
`linkedin-job-filter-applied` when the status is `applied`, according to
`appliedAction` (`hide`, `dim`, anything else: no marker). -/
def processJob (settings : ExtensionSettings) (now : Int) (j : Job) : Job :=
  let status := (getJobStatus now j).status
  let m0 : Markers := { viewedClass := false, appliedClass := false, hiddenClass := false }
  let m1 := if status = .viewed ∧ settings.highlightViewed = true then
      { m0 with viewedClass := true } else m0
  let m2 :=
    if status = .applied then
      if settings.appliedAction = "hide" then { m1 with hiddenClass := true }
      else if settings.appliedAction = "dim" then { m1 with appliedClass := true }
      else m1
    else m1
  { j with markers := m2 }

/-- `processJobs`: the classification-and-marker pass over every job card. -/
def processJobs (settings : ExtensionSettings) (now : Int) (jobs : List Job) : List Job :=
  jobs.map (processJob settings now)

/-- The order ledger `originalOrder`: an insertion-ordered map from item
identity to first-seen index, as a JavaScript `Map` association list. -/
def Ledger := List (Nat × Nat)

/-- `Map.prototype.set`: overwrite the value at an existing key in place, or
append a new entry. -/
def ledgerSet (L : List (Nat × Nat)) (k v : Nat) : List (Nat × Nat) :=
  match L with
  | [] => [(k, v)]
  | (k', v') :: rest => if k' = k then (k, v) :: rest else (k', v') :: ledgerSet rest k v

/-- `Map.prototype.get`, as an `Option`. -/
def ledgerGet (L : List (Nat × Nat)) (k : Nat) : Option Nat :=
  (L.find? (fun p => p.1 == k)).map (fun p => p.2)

/-- The loop of `captureOriginalOrder`:
`jobs.forEach((job, index) => originalOrder.set(job, index))`, starting the
index counter at `i`. -/
def captureAux (L : List (Nat × Nat)) (i : Nat) : List Job → List (Nat × Nat)
  | [] => L
  | j :: js => captureAux (ledgerSet L j.id i) (i + 1) js

/-- `captureOriginalOrder`: record every current job at its current document
index (overwriting any previous entry). -/
def captureOriginalOrder (L : List (Nat × Nat)) (jobs : List Job) : List (Nat × Nat) :=
  captureAux L 0 jobs

/-- The ledger update performed by `sortJobs`: `captureOriginalOrder` runs
only when the ledger is empty (`originalOrder.size === 0`). -/
def sortJobsLedger (L : List (Nat × Nat)) (jobs : List Job) : List (Nat × Nat) :=
  if L.isEmpty then captureOriginalOrder L jobs else L

/-- Insert `x` into `M` in front of the first element `y` with
`cmp x y ≤ 0`.  Used by `sortStable` below. -/
def insertF (cmp : α → α → Int) (x : α) : List α → List α
  | [] => [x]
  | y :: ys => if cmp x y ≤ 0 then x :: y :: ys else y :: insertF cmp x ys

/-- Stable sort with a JavaScript-style three-way comparator.
`Array.prototype.sort` is specified (ECMAScript 2019) to be stable, and all
comparators used by `sortJobs` are rank-consistent, so the sorted result is
the unique stable reordering; stable insertion sort computes it. -/
def sortStable (cmp : α → α → Int) : List α → List α
  | [] => []
  | x :: xs => insertF cmp x (sortStable cmp xs)

/-- The `default` branch comparator of `sortJobs`:
`(originalOrder.get(a) ?? Infinity) - (originalOrder.get(b) ?? Infinity)`.
Only the sign of a comparator result matters to the sort; `x - Infinity` is
negative, `Infinity - y` is positive, and `Infinity - Infinity` is `NaN`,
which the sort treats as `+0`. -/
def cmpDefault (L : List (Nat × Nat)) (a b : Job) : Int :=
  match ledgerGet L a.id, ledgerGet L b.id with
  | some i, some j => (i : Int) - (j : Int)
  | some _, none => -1
  | none, some _ => 1
  | none, none => 0

/-- The `recent` case of the `sortJobs` comparator: items without a time go
first in the sort array (pre-reverse), otherwise ascending by timestamp. -/
def cmpRecent (now : Int) (a b : Job) : Int :=
  match (getJobStatus now a).time, (getJobStatus now b).time with
  | none, none => 0
  | none, some _ => -1
  | some _, none => 1
  | some x, some y => x - y

/-- The `viewed-first` case of the `sortJobs` comparator. -/
def cmpViewedFirst (now : Int) (a b : Job) : Int :=
  if (getJobStatus now a).status = .viewed ∧ (getJobStatus now b).status ≠ .viewed then -1
  else if (getJobStatus now a).status ≠ .viewed ∧ (getJobStatus now b).status = .viewed then 1
  else 0

/-- The `viewed-last` case of the `sortJobs` comparator. -/
def cmpViewedLast (now : Int) (a b : Job) : Int :=
  if (getJobStatus now a).status = .viewed ∧ (getJobStatus now b).status ≠ .viewed then 1
  else if (getJobStatus now a).status ≠ .viewed ∧ (getJobStatus now b).status = .viewed then -1
  else 0

/-- The `switch (this.settings.sortBy)` inside the `sortJobs` comparator;
any unlisted value falls through to `return 0`. -/
def sortComparator (sortBy : String) (now : Int) (a b : Job) : Int :=
  if sortBy = "recent" then cmpRecent now a b
  else if sortBy = "viewed-first" then cmpViewedFirst now a b
  else if sortBy = "viewed-last" then cmpViewedLast now a b
  else 0

/-- `sortJobs`, as the final visual (DOM) order it produces: capture the
ledger if empty, restore ledger order for `default`, otherwise sort with the
policy comparator; for `recent` the sorted array is applied in reverse (each
element re-appended starting from the reversed array's head), so the visual
order is its reversal. -/
def sortJobsOrder (sortBy : String) (L : List (Nat × Nat)) (now : Int)
    (jobs : List Job) : List Job :=
  if sortBy = "default" then sortStable (cmpDefault (sortJobsLedger L jobs)) jobs
  else if sortBy = "recent" then (sortStable (sortComparator sortBy now) jobs).reverse
  else sortStable (sortComparator sortBy now) jobs

/-- A DOM node as inspected by the observer callback: its `nodeType` and
whether it matches the job-card selector `[data-occludable-job-id]`. -/
structure DomNode where
  nodeType : Nat
  matchesJobCard : Bool
deriving DecidableEq

/-- One `MutationRecord` delivered to the observer callback. -/
structure MutationRecord where
  type : String
  addedNodes : List DomNode
deriving DecidableEq

/-- The `shouldProcess` computation of the `startObserver` callback: some
`childList` mutation added an element node matching the job-card selector. -/
def mutationShouldProcess (muts : List MutationRecord) : Bool :=
  muts.any (fun m =>
    m.type == "childList" &&
      m.addedNodes.any (fun n => n.nodeType == 1 && n.matchesJobCard))

/-- One invocation of the `MutationObserver` callback: when `shouldProcess`
holds it unconditionally calls `setTimeout(..., 100)`, adding one more
pending reprocessing pass; there is no pending flag and no timer reset. -/
def observerCallback (pending : Nat) (muts : List MutationRecord) : Nat :=
  if mutationShouldProcess muts then pending + 1 else pending

/-- Total number of reprocessing passes scheduled by a sequence of observer
callback invocations (each list element is the mutation batch of one
callback). -/
def scheduledReprocessCount (bursts : List (List MutationRecord)) : Nat :=
  bursts.foldl observerCallback 0

/-- `MessageRequest` of `types.ts`. -/
structure MessageRequest where
  type : String
  settings : Option ExtensionSettings
deriving DecidableEq

/-- `MessageResponse` of `types.ts` (all fields optional). -/
structure MessageResponse where
  success : Option Bool
  total : Option Nat
  viewed : Option Nat
  applied : Option Nat
deriving DecidableEq

/-- The `getStats` response body: total count plus counts of `viewed` and
`applied` jobs. -/
def statsResponse (now : Int) (jobs : List Job) : MessageResponse :=
  { success := none
    total := some jobs.length
    viewed := some (jobs.countP (fun j => (getJobStatus now j).status = .viewed))
    applied := some (jobs.countP (fun j => (getJobStatus now j).status = .applied)) }

/-- The `setupMessageListener` handler, as the list of `sendResponse` calls
it performs for one request: `applySettings` responds `{success: true}` only
when a settings payload is present; `getStats` responds with the counts; any
other request falls through both `if` blocks and is never answered. -/
def listenerResponses (now : Int) (jobs : List Job) (request : MessageRequest) :
    List MessageResponse :=
  (if request.type = "applySettings" ∧ request.settings.isSome then
    [{ success := some true, total := none, viewed := none, applied := none }]
  else []) ++
  (if request.type = "getStats" then [statsResponse now jobs] else [])

/-! ### Concrete test fixtures -/

/-- A job card with no status and no time fragment. -/
def mkJob (n : Nat) : Job :=
  { id := n, stateText := none, timeText := none
    markers := { viewedClass := false, appliedClass := false, hiddenClass := false } }

/-- A job card whose time fragment reads "10 minutes ago". -/
def jobTenMinutes : Job := { mkJob 0 with timeText := some "10 minutes ago" }

/-- A job card whose time fragment reads "2 hours ago". -/
def jobTwoHours : Job := { mkJob 1 with timeText := some "2 hours ago" }

/-- A job card whose time fragment reads "4 hours ago". -/
def jobFourHours : Job := { mkJob 2 with timeText := some "4 hours ago" }

/-- A job card with no time fragment, for the recency-ordering scenario. -/
def jobNoTime : Job := mkJob 3

/-- A job card with the given status fragment and nothing else. -/
def jobWithState (n : Nat) (t : Option String) : Job := { mkJob n with stateText := t }

/-- Settings that hide applied items (used as a concrete witness input). -/
def hideSettings : ExtensionSettings :=
  { sortBy := "default", appliedAction := "hide", highlightViewed := true }

/-- All ways to insert `x` into a list (used to enumerate arrangements). -/
def insertEverywhere (x : α) : List α → List (List α)
  | [] => [[x]]
  | y :: ys => (x :: y :: ys) :: (insertEverywhere x ys).map (fun zs => y :: zs)

/-- All arrangements (permutations) of a list, by repeated insertion.
Structurally recursive so that membership is kernel-decidable. -/
def allArrangements : List α → List (List α)
  | [] => [[]]
  | x :: xs => (allArrangements xs).flatMap (insertEverywhere x)

/-! ### General lemmas about the stable sort -/

/-- Inserting an element of the tie class of `p` puts it at the head of the
`p`-filtered subsequence, provided everything strictly smaller than `x`
(everything `x` jumps over) is outside the class. -/
theorem filter_insertF_pos (cmp : α → α → Int) (p : α → Bool) (x : α)
    (hx : p x = true) (hcut : ∀ y, 0 < cmp x y → p y = false) (M : List α) :
    (insertF cmp x M).filter p = x :: M.filter p := by
  induction M with
  | nil => simp [insertF, hx]
  | cons y ys ih =>
    by_cases h : cmp x y ≤ 0
    · simp [insertF, h, hx]
    · have hy : p y = false := hcut y (by omega)
      simp [insertF, h, hy, ih]

/-- Inserting an element outside the class of `p` leaves the `p`-filtered
subsequence untouched. -/
theorem filter_insertF_neg (cmp : α → α → Int) (p : α → Bool) (x : α)
    (hx : p x = false) (M : List α) :
    (insertF cmp x M).filter p = M.filter p := by
  induction M with
  | nil => simp [insertF, hx]
  | cons y ys ih =>
    by_cases h : cmp x y ≤ 0
    · simp [insertF, h, hx]
    · simp only [insertF, if_neg h]
      by_cases hy : p y = true
      · simp [List.filter_cons, hy, ih]
      · have hy' : p y = false := by revert hy; cases p y <;> simp
        simp [List.filter_cons, hy', ih]

/-- Stability of `sortStable`: for a comparator that never ranks an element
of a tie class strictly above an element inside it, the subsequence of each
tie class is preserved exactly. -/
theorem filter_sortStable (cmp : α → α → Int) (p : α → Bool)
    (hcut : ∀ x y, p x = true → 0 < cmp x y → p y = false) (l : List α) :
    (sortStable cmp l).filter p = l.filter p := by
  induction l with
  | nil => rfl
  | cons x xs ih =>
    by_cases hx : p x = true
    · rw [sortStable, filter_insertF_pos cmp p x hx (fun y hy => hcut x y hx hy), ih]
      simp [List.filter_cons, hx]
    · have hx' : p x = false := by revert hx; cases p x <;> simp
      rw [sortStable, filter_insertF_neg cmp p x hx', ih]
      simp [List.filter_cons, hx']

/-- A comparator that never returns a positive value sorts every list to
itself. -/
theorem sortStable_of_nonpos (cmp : α → α → Int) (h : ∀ a b, cmp a b ≤ 0)
    (l : List α) : sortStable cmp l = l := by
  induction l with
  | nil => rfl
  | cons x xs ih =>
    rw [sortStable, ih]
    cases xs with
    | nil => rfl
    | cons y ys => simp [insertF, h x y]

/-! ### Tie-class lemmas for the four comparators -/

/-- `cmpDefault` ranks consistently: jumping over `y` expels it from any tie
class containing `x`. -/
theorem cmpDefault_cut (L : List (Nat × Nat)) (b x y : Job)
    (h0 : cmpDefault L x b = 0) (h1 : 0 < cmpDefault L x y) :
    ¬ cmpDefault L y b = 0 := by
  unfold cmpDefault at h0 h1 ⊢
  cases hx : ledgerGet L x.id
  all_goals cases hb : ledgerGet L b.id
  all_goals cases hy : ledgerGet L y.id
  all_goals simp_all
  all_goals omega

/-- `cmpRecent` ranks consistently. -/
theorem cmpRecent_cut (now : Int) (b x y : Job)
    (h0 : cmpRecent now x b = 0) (h1 : 0 < cmpRecent now x y) :
    ¬ cmpRecent now y b = 0 := by
  unfold cmpRecent at h0 h1 ⊢
  cases hx : (getJobStatus now x).time
  all_goals cases hb : (getJobStatus now b).time
  all_goals cases hy : (getJobStatus now y).time
  all_goals simp_all
  all_goals omega

/-- `cmpViewedFirst` ranks consistently. -/
theorem cmpViewedFirst_cut (now : Int) (b x y : Job)
    (h0 : cmpViewedFirst now x b = 0) (h1 : 0 < cmpViewedFirst now x y) :
    ¬ cmpViewedFirst now y b = 0 := by
  unfold cmpViewedFirst at h0 h1 ⊢
  by_cases hx : (getJobStatus now x).status = .viewed
  all_goals by_cases hb : (getJobStatus now b).status = .viewed
  all_goals by_cases hy : (getJobStatus now y).status = .viewed
  all_goals simp_all

/-- `cmpViewedLast` ranks consistently. -/
theorem cmpViewedLast_cut (now : Int) (b x y : Job)
    (h0 : cmpViewedLast now x b = 0) (h1 : 0 < cmpViewedLast now x y) :
    ¬ cmpViewedLast now y b = 0 := by
  unfold cmpViewedLast at h0 h1 ⊢
  by_cases hx : (getJobStatus now x).status = .viewed
  all_goals by_cases hb : (getJobStatus now b).status = .viewed
  all_goals by_cases hy : (getJobStatus now y).status = .viewed
  all_goals simp_all

/-! ### Ledger lemmas -/

/-- `Map.set` then `Map.get` at the same key. -/
theorem ledgerGet_set_self (L : List (Nat × Nat)) (k v : Nat) :
    ledgerGet (ledgerSet L k v) k = some v := by
  induction L with
  | nil => simp [ledgerSet, ledgerGet]
  | cons p t ih =>
    obtain ⟨a, b⟩ := p
    by_cases h : a = k
    · simp [ledgerSet, ledgerGet, h, List.find?]
    · have hb : (a == k) = false := beq_eq_false_iff_ne.mpr h
      simpa [ledgerSet, if_neg h, ledgerGet, List.find?, hb] using ih

/-- `Map.set` leaves other keys untouched. -/
theorem ledgerGet_set_ne (L : List (Nat × Nat)) (k v k' : Nat) (h : k' ≠ k) :
    ledgerGet (ledgerSet L k v) k' = ledgerGet L k' := by
  have hkk : (k == k') = false := beq_eq_false_iff_ne.mpr (Ne.symm h)
  induction L with
  | nil => simp [ledgerSet, ledgerGet, List.find?, hkk]
  | cons p t ih =>
    obtain ⟨a, b⟩ := p
    by_cases hp : a = k
    · subst hp
      simp [ledgerSet, ledgerGet, List.find?, hkk]
    · by_cases hp' : a = k'
      · subst hp'
        simp [ledgerSet, if_neg hp, ledgerGet, List.find?]
      · have hb : (a == k') = false := beq_eq_false_iff_ne.mpr hp'
        simpa [ledgerSet, if_neg hp, ledgerGet, List.find?, hb] using ih

/-- The capture loop does not touch keys of jobs not in the batch. -/
theorem captureAux_get_of_not_mem (jobs : List Job) (L : List (Nat × Nat))
    (i k : Nat) (h : ∀ j ∈ jobs, j.id ≠ k) :
    ledgerGet (captureAux L i jobs) k = ledgerGet L k := by
  induction jobs generalizing L i with
  | nil => rfl
  | cons j js ih =>
    rw [captureAux, ih _ _ (fun j' hj' => h j' (List.mem_cons_of_mem _ hj'))]
    exact ledgerGet_set_ne _ _ _ _ (Ne.symm (h j (List.mem_cons_self _ _)))

/-- The capture loop assigns each job its batch position (offset by the
starting counter), provided job identities in the batch are distinct. -/
theorem captureAux_get (jobs : List Job) :
    ∀ (L : List (Nat × Nat)) (n i : Nat) (h : i < jobs.length),
      (jobs.map Job.id).Nodup →
      ledgerGet (captureAux L n jobs) ((jobs.get ⟨i, h⟩).id) = some (n + i) := by
  induction jobs with
  | nil => intro L n i h _; exact absurd h (by simp)
  | cons j js ih =>
    intro L n i h hnd
    rcases i with _ | i'
    · rw [captureAux, List.get]
      have hne : ∀ j' ∈ js, j'.id ≠ j.id := by
        intro j' hj' he
        have hj : j.id ∉ js.map Job.id := (List.nodup_cons.mp (by simpa using hnd)).1
        exact hj (he ▸ List.mem_map_of_mem Job.id hj')
      rw [captureAux_get_of_not_mem _ _ _ _ hne, ledgerGet_set_self]
      simp
    · rw [captureAux, List.get]
      have hnd' : (js.map Job.id).Nodup := (List.nodup_cons.mp (by simpa using hnd)).2
      rw [ih (ledgerSet L j.id n) (n + 1) i' (by simpa using h) hnd']
      congr 1
      omega

/-! ### Claim theorems -/

/-- C1: for every input arrangement of three items carrying the recency
fragments "10 minutes ago", "2 hours ago" and "4 hours ago" plus one item
with no time fragment, sort policy `recent` (stable ascending-time sort,
applied in reverse) yields the visual order 10 minutes ago, 2 hours ago,
4 hours ago, and the no-time item last. -/
theorem recent_policy_visual_order (l : List Job)
    (h : l ∈ allArrangements [jobTenMinutes, jobTwoHours, jobFourHours, jobNoTime]) :
    sortJobsOrder "recent" [] 0 l =
      [jobTenMinutes, jobTwoHours, jobFourHours, jobNoTime] := by
  have hall : ∀ l' ∈ allArrangements [jobTenMinutes, jobTwoHours, jobFourHours, jobNoTime],
      sortJobsOrder "recent" [] 0 l' =
        [jobTenMinutes, jobTwoHours, jobFourHours, jobNoTime] := by decide
  exact hall l h

/-- Witness for C1 at the fully reversed input arrangement. -/
theorem recent_policy_visual_order_witness :
    ([jobNoTime, jobFourHours, jobTwoHours, jobTenMinutes] ∈
      allArrangements [jobTenMinutes, jobTwoHours, jobFourHours, jobNoTime]) ∧
    sortJobsOrder "recent" [] 0 [jobNoTime, jobFourHours, jobTwoHours, jobTenMinutes] =
      [jobTenMinutes, jobTwoHours, jobFourHours, jobNoTime] :=
  ⟨by decide,
   recent_policy_visual_order [jobNoTime, jobFourHours, jobTwoHours, jobTenMinutes] (by decide)⟩

/-- C2 counterexample: under policy `recent`, two items of equal sort rank
(here: both lacking a timestamp) do NOT retain their input order in the
visually applied output — the final reverse step flips every tie. -/
theorem recent_reverse_flips_ties :
    cmpRecent 0 (mkJob 0) (mkJob 1) = 0 ∧
    sortJobsOrder "recent" [] 0 [mkJob 0, mkJob 1] = [mkJob 1, mkJob 0] ∧
    mkJob 0 ≠ mkJob 1 := by decide

/-- C2 amended: for `default`, `viewed-first` and `viewed-last` the visually
applied output preserves the relative order of equal-rank items (the
subsequence of every comparator tie class is unchanged); for `recent` the
pre-reverse sorted array is stable, so the visually applied (reversed)
output carries every tie class in reversed input order. -/
theorem sort_stability_amended :
    (∀ (L : List (Nat × Nat)) (now : Int) (l : List Job) (b : Job),
      (sortJobsOrder "default" L now l).filter
          (fun z => cmpDefault (sortJobsLedger L l) z b = 0) =
        l.filter (fun z => cmpDefault (sortJobsLedger L l) z b = 0)) ∧
    (∀ (L : List (Nat × Nat)) (now : Int) (l : List Job) (b : Job),
      (sortJobsOrder "viewed-first" L now l).filter
          (fun z => cmpViewedFirst now z b = 0) =
        l.filter (fun z => cmpViewedFirst now z b = 0)) ∧
    (∀ (L : List (Nat × Nat)) (now : Int) (l : List Job) (b : Job),
      (sortJobsOrder "viewed-last" L now l).filter
          (fun z => cmpViewedLast now z b = 0) =
        l.filter (fun z => cmpViewedLast now z b = 0)) ∧
    (∀ (L : List (Nat × Nat)) (now : Int) (l : List Job) (b : Job),
      (sortJobsOrder "recent" L now l).filter
          (fun z => cmpRecent now z b = 0) =
        (l.filter (fun z => cmpRecent now z b = 0)).reverse) := by
  refine ⟨?_, ?_, ?_, ?_⟩
  · intro L now l b
    have e1 : sortJobsOrder "default" L now l =
        sortStable (cmpDefault (sortJobsLedger L l)) l := by
      simp [sortJobsOrder]
    rw [e1]
    exact filter_sortStable _ _
      (fun x y hx hy => by
        simp only [decide_eq_true_eq] at hx
        simp only [decide_eq_false_iff_not]
        exact cmpDefault_cut _ _ _ _ hx hy) l
  · intro L now l b
    have e1 : sortJobsOrder "viewed-first" L now l =
        sortStable (cmpViewedFirst now) l := by
      have hc : sortComparator "viewed-first" now = cmpViewedFirst now := by
        funext a b'
        simp [sortComparator]
      simp [sortJobsOrder, hc]
    rw [e1]
    exact filter_sortStable _ _
      (fun x y hx hy => by
        simp only [decide_eq_true_eq] at hx
        simp only [decide_eq_false_iff_not]
        exact cmpViewedFirst_cut _ _ _ _ hx hy) l
  · intro L now l b
    have e1 : sortJobsOrder "viewed-last" L now l =
        sortStable (cmpViewedLast now) l := by
      have hc : sortComparator "viewed-last" now = cmpViewedLast now := by
        funext a b'
        simp [sortComparator]
      simp [sortJobsOrder, hc]
    rw [e1]
    exact filter_sortStable _ _
      (fun x y hx hy => by
        simp only [decide_eq_true_eq] at hx
        simp only [decide_eq_false_iff_not]
        exact cmpViewedLast_cut _ _ _ _ hx hy) l
  · intro L now l b
    have e1 : sortJobsOrder "recent" L now l =
        (sortStable (cmpRecent now) l).reverse := by
      have hc : sortComparator "recent" now = cmpRecent now := by
        funext a b'
        simp [sortComparator]
      simp [sortJobsOrder, hc]
    rw [e1, List.filter_reverse]
    congr 1
    exact filter_sortStable _ _
      (fun x y hx hy => by
        simp only [decide_eq_true_eq] at hx
        simp only [decide_eq_false_iff_not]
        exact cmpRecent_cut _ _ _ _ hx hy) l

/-- C5 counterexample: with a nonempty ledger recording `[0, 1]` and the
items currently displayed as `[1, 0]`, an out-of-enum policy leaves the
order `[1, 0]` while policy `default` restores `[0, 1]` — the two observable
orders differ. -/
theorem unknown_policy_differs_from_default :
    sortJobsOrder "priority" [(0, 0), (1, 1)] 0 [mkJob 1, mkJob 0] = [mkJob 1, mkJob 0] ∧
    sortJobsOrder "default" [(0, 0), (1, 1)] 0 [mkJob 1, mkJob 0] = [mkJob 0, mkJob 1] := by
  decide

/-- C5 amended: a policy value outside the four enumerated values skips the
`default` (ledger restoration) branch and falls through the comparator
switch returning 0 everywhere, so the sort is a no-op: the current document
order is preserved unchanged. -/
theorem unknown_policy_preserves_order (sortBy : String)
    (h1 : sortBy ≠ "default") (h2 : sortBy ≠ "recent")
    (h3 : sortBy ≠ "viewed-first") (h4 : sortBy ≠ "viewed-last")
    (L : List (Nat × Nat)) (now : Int) (jobs : List Job) :
    sortJobsOrder sortBy L now jobs = jobs := by
  have hc : ∀ a b, sortComparator sortBy now a b ≤ 0 := by
    intro a b
    simp [sortComparator, h2, h3, h4]
  simp only [sortJobsOrder, if_neg h1, if_neg h2]
  exact sortStable_of_nonpos _ hc jobs

/-- Witness for C5 amended, at the out-of-enum policy value "priority". -/
theorem unknown_policy_preserves_order_witness :
    sortJobsOrder "priority" [(3, 0)] 0 [mkJob 4, mkJob 3] = [mkJob 4, mkJob 3] :=
  unknown_policy_preserves_order "priority" (by decide) (by decide) (by decide) (by decide)
    [(3, 0)] 0 [mkJob 4, mkJob 3]

/-- C10: the classification-and-marker pass is idempotent — each pass
recomputes the three markers from the item's (unchanged) status fragments
and the settings alone, so a second pass changes nothing. -/
theorem process_jobs_idempotent (settings : ExtensionSettings) (now : Int)
    (jobs : List Job) :
    processJobs settings now (processJobs settings now jobs) =
      processJobs settings now jobs := by
  simp only [processJobs, List.map_map]
  exact List.map_congr_left (fun j _ => rfl)

/-- C3 counterexample: after a first batch `[item 0]` populates the ledger,
recording the later batch `[item 0, item 1]` leaves item 1 with no ledger
entry at all — it does not receive the next unused index 1 as claimed. -/
theorem later_batch_not_recorded :
    ledgerGet (sortJobsLedger (sortJobsLedger [] [mkJob 0]) [mkJob 0, mkJob 1]) 1 = none ∧
    ¬ ledgerGet (sortJobsLedger (sortJobsLedger [] [mkJob 0]) [mkJob 0, mkJob 1]) 1 = some 1 := by
  decide

/-- C3 amended: ledger recording is guarded by emptiness.  A batch recorded
into an empty ledger assigns every item its document-order index; once the
ledger is nonempty, every later batch leaves it entirely unchanged, so
recorded items keep their first-assigned index but newly discovered items
are never assigned one (they are treated as the sort-last sentinel by the
`default` comparator). -/
theorem ledger_record_amended :
    (∀ (L : List (Nat × Nat)) (jobs : List Job), L ≠ [] → sortJobsLedger L jobs = L) ∧
    (∀ (jobs : List Job) (i : Nat) (h : i < jobs.length),
      (jobs.map Job.id).Nodup →
      ledgerGet (sortJobsLedger [] jobs) ((jobs.get ⟨i, h⟩).id) = some i) := by
  constructor
  · intro L jobs h
    cases L with
    | nil => exact absurd rfl h
    | cons p t => simp [sortJobsLedger]
  · intro jobs i h hnd
    have e1 : sortJobsLedger [] jobs = captureAux [] 0 jobs := by
      simp [sortJobsLedger, captureOriginalOrder]
    rw [e1]
    simpa using captureAux_get jobs [] 0 i h hnd

/-- Witness for C3 amended: a nonempty ledger survives a later batch, and an
initial capture indexes the second item with 1. -/
theorem ledger_record_amended_witness :
    sortJobsLedger [(5, 0)] [mkJob 9] = [(5, 0)] ∧
    ledgerGet (sortJobsLedger [] [mkJob 3, mkJob 7]) 7 = some 1 := by
  refine ⟨ledger_record_amended.1 [(5, 0)] [mkJob 9] (by decide), ?_⟩
  have h := ledger_record_amended.2 [mkJob 3, mkJob 7] 1 (by decide) (by decide)
  simpa using h

/-- C4 counterexample: two consecutive observer-callback invocations, each
reporting one inserted job card, schedule two reprocessing passes — the
pending pass does not absorb the second event. -/
theorem burst_schedules_two_passes :
    scheduledReprocessCount
        [[{ type := "childList", addedNodes := [{ nodeType := 1, matchesJobCard := true }] }],
         [{ type := "childList", addedNodes := [{ nodeType := 1, matchesJobCard := true }] }]] = 2 ∧
    (2 : Nat) ≠ 1 := by decide

/-- C4 amended: the observer callback has no pending flag and never cancels
a timer, so every callback invocation whose mutation batch adds a matching
job card schedules its own delayed reprocessing pass: a burst of k such
invocations yields exactly k passes, not one. -/
theorem reprocess_count_eq_qualifying_events (bursts : List (List MutationRecord)) :
    scheduledReprocessCount bursts = bursts.countP mutationShouldProcess := by
  suffices hgen : ∀ n, bursts.foldl observerCallback n = n + bursts.countP mutationShouldProcess by
    simpa [scheduledReprocessCount] using hgen 0
  induction bursts with
  | nil =>
    intro n
    simp
  | cons mBatch t ih =>
    intro n
    rw [List.foldl_cons, List.countP_cons, ih]
    unfold observerCallback
    by_cases hm : mutationShouldProcess mBatch = true
    · simp [hm]
      omega
    · simp [hm]

/-- C6 counterexample: an `applySettings` request missing its settings
payload receives zero responses, not exactly one. -/
theorem apply_settings_without_payload_unanswered :
    (listenerResponses 0 [] { type := "applySettings", settings := none }).length = 0 ∧
    (0 : Nat) ≠ 1 := by decide

/-- C6 amended: the listener answers exactly once for an `applySettings`
request carrying a payload and for a `getStats` request, and never answers
an `applySettings` request without payload or a request of any other
type. -/
theorem listener_response_count (now : Int) (jobs : List Job)
    (request : MessageRequest) :
    (listenerResponses now jobs request).length =
      (if (request.type = "applySettings" ∧ request.settings.isSome) ∨
          request.type = "getStats" then 1 else 0) := by
  by_cases h1 : request.type = "applySettings" ∧ request.settings.isSome
  · have h2 : ¬ request.type = "getStats" := by
      intro hg
      have : ("getStats" : String) = "applySettings" := hg ▸ h1.1
      exact absurd this (by decide)
    simp [listenerResponses, h1, h2]
  · by_cases h2 : request.type = "getStats"
    · simp [listenerResponses, h1, h2]
    · simp [listenerResponses, h1, h2]

/-- C7 counterexample: the fragment "1 hour AGO" matches the case-insensitive
relative-duration pattern (the regex matcher extracts value 1, unit hour),
yet `parseRelativeTime` yields no recency, because the line-selection step
`line.includes('ago')` is case-sensitive. -/
theorem uppercase_ago_not_parsed :
    scanMatch "1 hour AGO".data = some (1, TimeUnit.hour) ∧
    parseRelativeTime 0 "1 hour AGO" = none := by decide

/-- C7 amended: recency is derived by selecting the first newline-separated
line containing the lowercase substring "ago" and matching it against the
case-insensitive pattern `<integer> <unit> ago` (unit in minute/hour/day/
week, optional trailing "s"); "1 week ago" is now minus exactly
7×24×3600 seconds, "59 minutes ago" and "1 hour ago" each use their own
stated unit, the unit word itself is case-insensitive, and a fragment whose
selected line does not match — or that contains "ago" only in upper
case — yields no recency. -/
theorem parse_relative_time_amended (now : Int) :
    parseRelativeTime now "1 week ago" = some (now - 7 * 24 * 3600 * 1000) ∧
    parseRelativeTime now "59 minutes ago" = some (now - 59 * 60 * 1000) ∧
    parseRelativeTime now "1 hour ago" = some (now - 60 * 60 * 1000) ∧
    parseRelativeTime now "10 Days ago" = some (now - 10 * 24 * 3600 * 1000) ∧
    parseRelativeTime now "tomorrow" = none ∧
    parseRelativeTime now "1 month ago" = none ∧
    parseRelativeTime now "1 hour AGO" = none :=
  ⟨rfl, rfl, rfl, rfl, rfl, rfl, rfl⟩

/-- C8: status classification — a state fragment whose normalized (trimmed,
lowercased) text contains "viewed" classifies as `viewed` (taking precedence
over "applied"), otherwise one containing "applied" classifies as `applied`,
otherwise `normal`; a missing fragment classifies as `normal`, and the
padded mixed-case fragment " Viewed " classifies as `viewed`. -/
theorem status_classification :
    (∀ (now : Int) (j : Job) (t : String), j.stateText = some t →
      containsSub "viewed".data ((trimChars t.data).map Char.toLower) = true →
      (getJobStatus now j).status = .viewed) ∧
    (∀ (now : Int) (j : Job) (t : String), j.stateText = some t →
      containsSub "viewed".data ((trimChars t.data).map Char.toLower) = false →
      containsSub "applied".data ((trimChars t.data).map Char.toLower) = true →
      (getJobStatus now j).status = .applied) ∧
    (∀ (now : Int) (j : Job) (t : String), j.stateText = some t →
      containsSub "viewed".data ((trimChars t.data).map Char.toLower) = false →
      containsSub "applied".data ((trimChars t.data).map Char.toLower) = false →
      (getJobStatus now j).status = .normal) ∧
    (∀ (now : Int) (j : Job), j.stateText = none →
      (getJobStatus now j).status = .normal) ∧
    (∀ (now : Int) (j : Job), j.stateText = some " Viewed " →
      (getJobStatus now j).status = .viewed) := by
  refine ⟨?_, ?_, ?_, ?_, ?_⟩
  · intro now j t ht hv
    simp [getJobStatus, ht, hv]
  · intro now j t ht hv ha
    simp [getJobStatus, ht, hv, ha]
  · intro now j t ht hv ha
    simp [getJobStatus, ht, hv, ha]
  · intro now j ht
    simp [getJobStatus, ht]
  · intro now j ht
    simp [getJobStatus, ht]
    decide

/-- Witness for C8 at concrete fragments exercising each clause. -/
theorem status_classification_witness :
    (getJobStatus 0 (jobWithState 0 (some "xx Viewed and Applied"))).status = .viewed ∧
    (getJobStatus 0 (jobWithState 0 (some "Applied 3 days ago"))).status = .applied ∧
    (getJobStatus 0 (jobWithState 0 (some "Promoted"))).status = .normal ∧
    (getJobStatus 0 (mkJob 0)).status = .normal ∧
    (getJobStatus 0 (jobWithState 0 (some " Viewed "))).status = .viewed :=
  ⟨status_classification.1 0 _ "xx Viewed and Applied" rfl (by decide),
   status_classification.2.1 0 _ "Applied 3 days ago" rfl (by decide) (by decide),
   status_classification.2.2.1 0 _ "Promoted" rfl (by decide) (by decide),
   status_classification.2.2.2.1 0 (mkJob 0) rfl,
   status_classification.2.2.2.2 0 (jobWithState 0 (some " Viewed ")) rfl⟩

/-- C9: the applied-axis markers are mutually exclusive with hide taking
precedence — under `appliedAction = "hide"` an applied item carries the
hidden marker and not the dim marker; under `"dim"` it carries the dim
marker and not the hidden marker; and no item ever carries both markers
after a pass. -/
theorem applied_markers_exclusive :
    (∀ (settings : ExtensionSettings) (now : Int) (j : Job),
      settings.appliedAction = "hide" → (getJobStatus now j).status = .applied →
      (processJob settings now j).markers.hiddenClass = true ∧
      (processJob settings now j).markers.appliedClass = false) ∧
    (∀ (settings : ExtensionSettings) (now : Int) (j : Job),
      settings.appliedAction = "dim" → (getJobStatus now j).status = .applied →
      (processJob settings now j).markers.appliedClass = true ∧
      (processJob settings now j).markers.hiddenClass = false) ∧
    (∀ (settings : ExtensionSettings) (now : Int) (j : Job),
      ¬ ((processJob settings now j).markers.hiddenClass = true ∧
         (processJob settings now j).markers.appliedClass = true)) := by
  refine ⟨?_, ?_, ?_⟩
  · intro settings now j ha hs
    simp [processJob, ha, hs]
  · intro settings now j ha hs
    have hd : ¬ settings.appliedAction = "hide" := by
      rw [ha]
      decide
    simp [processJob, ha, hs, hd]
  · intro settings now j
    by_cases hv : (getJobStatus now j).status = .viewed ∧ settings.highlightViewed = true
    all_goals by_cases hs : (getJobStatus now j).status = .applied
    all_goals by_cases hh : settings.appliedAction = "hide"
    all_goals by_cases hd : settings.appliedAction = "dim"
    all_goals simp [processJob, hv, hs, hh, hd]

/-- Witness for C9 on a concrete applied item under hide. -/
theorem applied_markers_exclusive_witness :
    (processJob hideSettings 0 (jobWithState 0 (some "Applied"))).markers.hiddenClass = true ∧
    (processJob hideSettings 0 (jobWithState 0 (some "Applied"))).markers.appliedClass = false :=
  applied_markers_exclusive.1 hideSettings 0 (jobWithState 0 (some "Applied")) rfl (by decide)

end JobFilter
